import Mathlib

/-!
Verification of the KaliAI query-orchestration pipeline
(`kali_orchestrator/agent.py`, with the data model of `memory.py`, the
configuration of `config.py` and the nmap plugin of `plugins/nmap_plugin.py`).

The Python code is shallowly embedded: dictionaries become structures with
`Option` fields (a `none` field models an absent key), Python exceptions
become `Except`/`Option`, `datetime.now()` becomes an explicit `now : String`
parameter, and the two opaque collaborators (the LLM backend and the remote
scan wrappers) become function parameters.  IP addresses are modelled at
IPv4 granularity: a string that is not a well-formed IPv4 literal (this
includes IPv6 literals) is unparsable, which the scope checker treats as
"rule does not match", exactly like Python's `ValueError` handler.
Strings are handled through their character lists; `str.lower` is modelled
by ASCII case folding (`Char.toLower`), matching CPython on ASCII input.
-/

/-! ### Basic string helpers (Python `in`, `endswith`, `lower`, `split`) -/

/-- Python's substring test `needle in hay` on character lists. -/
def infixOf (needle : List Char) : List Char → Bool
  | [] => needle.isEmpty
  | c :: rest => needle.isPrefixOf (c :: rest) || infixOf needle rest

/-- Python's `str.lower`, restricted to ASCII case folding. -/
def lowerStr (s : String) : String := String.mk (s.data.map Char.toLower)

/-- Python's `str.split(sep)` for a single-character separator:
`splitOnChar sep "a..b"` gives `["a", "", "b"]` and splitting the empty
string gives `[""]`, as in Python. -/
def splitOnChar (sep : Char) : List Char → List (List Char)
  | [] => [[]]
  | c :: rest =>
    if c = sep then
      [] :: splitOnChar sep rest
    else
      match splitOnChar sep rest with
      | [] => [[c]]
      | group :: groups => (c :: group) :: groups

/-- Characters counted as "word" characters by `\b` in the Python regexes
(ASCII letters, digits and underscore). -/
def wordChar (c : Char) : Bool := c.isAlphanum || c = '_'

/-! ### Configuration (`config.py`)

Only the parts the orchestration pipeline reads are embedded: the scope
rule set and the safety settings.  The LLM / hexstrike / logging /
reporting sections configure external collaborators. -/

structure ScopeConfig where
  allowed_ips : List String
  allowed_domains : List String
  strict_mode : Bool
deriving DecidableEq

structure SafetyConfig where
  require_confirmation : Bool
  dangerous_actions : List String
deriving DecidableEq

structure OrchestratorConfig where
  scope : ScopeConfig
  safety : SafetyConfig
deriving DecidableEq

/-- The pydantic defaults: empty allow-lists, strict mode on,
confirmation required, keywords `exploit`, `payload`, `inject`. -/
def defaultConfig : OrchestratorConfig :=
  { scope := { allowed_ips := [], allowed_domains := [], strict_mode := true }
    safety := { require_confirmation := true
                dangerous_actions := ["exploit", "payload", "inject"] } }

/-! ### Safety gate (`OrchestratorAgent._is_dangerous_action`) -/

/-- `_is_dangerous_action`: lowercases the query and tests each configured
keyword, verbatim, for substring containment (`keyword in query_lower`). -/
def is_dangerous_action (cfg : OrchestratorConfig) (query : String) : Bool :=
  let query_lower := lowerStr query
  cfg.safety.dangerous_actions.any fun keyword =>
    infixOf keyword.data query_lower.data

/-- The claim's notion of fully case-insensitive matching (both sides
folded); used to state what `_is_dangerous_action` does NOT implement. -/
def ciContains (keyword query : String) : Bool :=
  infixOf (lowerStr keyword).data (lowerStr query).data

/-! ### IPv4 parsing, mirroring Python's `ipaddress` module -/

/-- Numeric value of an ASCII digit string (callers check digits first). -/
def digitsToNat (s : List Char) : Nat :=
  s.foldl (fun a c => a * 10 + (c.toNat - 48)) 0

/-- `IPv4Address._parse_octet`: 1–3 ASCII digits, no leading zero
(except "0" itself), value at most 255. -/
def parseOctet (s : List Char) : Option Nat :=
  if s.isEmpty then none
  else if ¬ s.all Char.isDigit then none
  else if s.length > 3 then none
  else if s.length > 1 ∧ s.head? = some '0' then none
  else
    let n := digitsToNat s
    if n ≤ 255 then some n else none

/-- `IPv4Address._ip_int_from_string`: exactly four dot-separated octets.
Everything else — including IPv6 literals — fails to parse. -/
def parseIPv4 (s : String) : Option Nat :=
  match splitOnChar '.' s.data with
  | [a, b, c, d] => do
    let a ← parseOctet a
    let b ← parseOctet b
    let c ← parseOctet c
    let d ← parseOctet d
    pure (((a * 256 + b) * 256 + c) * 256 + d)
  | _ => none

/-- The contiguous netmask with `p` leading one bits (`p ≤ 32`). -/
def maskOfPrefix (p : Nat) : Nat := 2 ^ 32 - 2 ^ (32 - p)

/-- `IPv4Network._prefix_from_ip_int`: recover a prefix length from a
dotted mask value, provided the mask is contiguous ones-then-zeros. -/
def netmaskToPrefix (m : Nat) : Option Nat :=
  (List.range 33).find? fun p => maskOfPrefix p = m

/-- `IPv4Network._make_netmask` on a string argument: a decimal prefix
length in 0..32, else a dotted netmask, else a dotted hostmask. -/
def parsePrefixPart (s : List Char) : Option Nat :=
  if ¬ s.isEmpty ∧ s.all Char.isDigit then
    let n := digitsToNat s
    if n ≤ 32 then some n else none
  else
    match parseIPv4 (String.mk s) with
    | none => none
    | some m =>
      match netmaskToPrefix m with
      | some p => some p
      | none => netmaskToPrefix ((2 ^ 32 - 1) - m)

/-- An IPv4 network: the (already masked) network address and the prefix
length.  `address` always has its low `32 - prefixlen` bits clear. -/
structure IPv4Net where
  address : Nat
  prefixlen : Nat
deriving DecidableEq

/-- `ipaddress.ip_network(s, strict=False)` at IPv4 granularity: at most
one `/`, address part a dotted quad, prefix part per `_make_netmask`;
host bits are masked off (that is what `strict=False` does).  Masking
with the contiguous netmask is clearing the low `32 - p` bits, written
arithmetically as division/multiplication by `2 ^ (32 - p)`. -/
def ip_network (s : String) : Option IPv4Net :=
  match splitOnChar '/' s.data with
  | [addr] => (parseIPv4 (String.mk addr)).map fun a => ⟨a, 32⟩
  | [addr, pfx] => do
    let a ← parseIPv4 (String.mk addr)
    let p ← parsePrefixPart pfx
    pure ⟨a / 2 ^ (32 - p) * 2 ^ (32 - p), p⟩
  | _ => none

/-- `IPv4Network.broadcast_address` as an integer. -/
def broadcastOf (n : IPv4Net) : Nat := n.address + (2 ^ (32 - n.prefixlen) - 1)

/-- `ip in network` (`IPv4Network.__contains__`): the candidate address
with its host bits masked off must equal the network address. -/
def inNetwork (ip : Nat) (n : IPv4Net) : Bool :=
  ip / 2 ^ (32 - n.prefixlen) * 2 ^ (32 - n.prefixlen) = n.address

/-- `target_net.subnet_of(network)` (`_is_subnet_of`): the rule network's
address is at most the target's, and the target's broadcast address is at
most the rule's. -/
def subnet_of (a b : IPv4Net) : Bool :=
  b.address ≤ a.address && broadcastOf a ≤ broadcastOf b

/-! ### Scope enforcer (`OrchestratorAgent._check_scope`) -/

/-- One iteration of the `allowed_ips` loop of `_check_scope`, with the
`except ValueError: pass` handler rendered as `Option` fall-through to
`false` (= this rule does not match). -/
def ipRuleMatch (rule target : String) : Bool :=
  if rule.data.contains '/' then
    match ip_network rule with
    | none => false
    | some network =>
      if target.data.contains '/' then
        match ip_network target with
        | none => false
        | some target_net => subnet_of target_net network
      else
        match parseIPv4 target with
        | none => false
        | some target_ip => inNetwork target_ip network
  else
    target = rule

/-- One iteration of the `allowed_domains` loop of `_check_scope`. -/
def domainRuleMatch (rule target : String) : Bool :=
  target = rule || (('.' :: rule.data).isSuffixOf target.data)

/-- `_check_scope`: everything is in scope in non-strict mode; otherwise
try every allowed-IP rule, then every allowed-domain rule. -/
def check_scope (cfg : OrchestratorConfig) (target : String) : Bool :=
  if ¬ cfg.scope.strict_mode then true
  else if cfg.scope.allowed_ips.any (fun rule => ipRuleMatch rule target) then true
  else cfg.scope.allowed_domains.any fun rule => domainRuleMatch rule target

/-! ### Target extractor (`OrchestratorAgent._extract_target`)

The two `re.findall` patterns are embedded as deterministic scanners.
`re.findall` tries each start position from the left; a candidate start
must satisfy `\b`, i.e. the previous character (if any) is not a word
character (the first character of either pattern is a word character).
Greedy quantifier + backtracking semantics are resolved per pattern:
digit/label runs are forced to be maximal because the character that has
to follow them (`.` or `/` or a boundary) is never in the repeated class. -/

/-- Is the previous character compatible with `\b` before a word
character? (`none` = start of string). -/
def boundaryBefore : Option Char → Bool
  | none => true
  | some c => ¬ wordChar c

/-- Does `\b` hold after a word character, looking at the rest of the
input? (empty = end of string). -/
def boundaryAfter : List Char → Bool
  | [] => true
  | c :: _ => ¬ wordChar c

/-- One `\d{1,3}\.` unit of the IP pattern: a maximal digit run of length
1–3 followed by a literal dot. -/
def octetDot (cs : List Char) : Option (List Char × List Char) :=
  let run := cs.takeWhile Char.isDigit
  let rest := cs.dropWhile Char.isDigit
  if 1 ≤ run.length ∧ run.length ≤ 3 then
    match rest with
    | '.' :: rest2 => some (run ++ ['.'], rest2)
    | _ => none
  else none

/-- Body of the IP pattern `(?:\d{1,3}\.){3}\d{1,3}(?:/\d{1,2})?\b`
(without the leading `\b`).  Returns the matched characters and the rest
of the input.  The optional `/dd` suffix is taken greedily; when its own
trailing `\b` fails the regex backtracks to the match without the suffix,
whose trailing `\b` is then satisfied by the `/` itself. -/
def ipCore (cs : List Char) : Option (List Char × List Char) := do
  let (a, cs1) ← octetDot cs
  let (b, cs2) ← octetDot cs1
  let (c, cs3) ← octetDot cs2
  let d := cs3.takeWhile Char.isDigit
  let cs4 := cs3.dropWhile Char.isDigit
  if 1 ≤ d.length ∧ d.length ≤ 3 then
    match cs4 with
    | '/' :: r =>
      let e := r.takeWhile Char.isDigit
      let r2 := r.dropWhile Char.isDigit
      if 1 ≤ e.length ∧ e.length ≤ 2 ∧ boundaryAfter r2 then
        some (a ++ b ++ c ++ d ++ '/' :: e, r2)
      else
        some (a ++ b ++ c ++ d, cs4)
    | _ => if boundaryAfter cs4 then some (a ++ b ++ c ++ d, cs4) else none
  else none

/-- The IP pattern at one start position (`prev` = preceding character). -/
def ipHere (prev : Option Char) (cs : List Char) : Option (List Char × List Char) :=
  if boundaryBefore prev then ipCore cs else none

/-- Characters allowed inside a domain label: `[a-zA-Z0-9-]`. -/
def labelChar (c : Char) : Bool := c.isAlphanum || c = '-'

/-- One `[a-zA-Z0-9](?:[a-zA-Z0-9-]{0,61}[a-zA-Z0-9])?\.` unit of the
domain pattern: a maximal label-character run of length 1–63 that starts
and ends with an alphanumeric character, followed by a literal dot. -/
def labelDot (cs : List Char) : Option (List Char × List Char) :=
  let run := cs.takeWhile labelChar
  let rest := cs.dropWhile labelChar
  match run with
  | [] => none
  | c0 :: _ =>
    if c0.isAlphanum ∧ (run.getLastD 'a').isAlphanum ∧ run.length ≤ 63 then
      match rest with
      | '.' :: rest2 => some (run ++ ['.'], rest2)
      | _ => none
    else none

/-- All greedy decompositions into 1, 2, 3, … leading labels, in
increasing label count (each entry: consumed characters, rest). -/
def labelChainAux : Nat → List Char → List (List Char × List Char)
  | 0, _ => []
  | fuel + 1, cs =>
    match labelDot cs with
    | none => []
    | some (w, rest) =>
      (w, rest) :: (labelChainAux fuel rest).map fun pr => (w ++ pr.1, pr.2)

def labelChain (cs : List Char) : List (List Char × List Char) :=
  labelChainAux (cs.length + 1) cs

/-- The trailing `[a-zA-Z]{2,}\b` of the domain pattern: a maximal letter
run of length at least 2, with a word boundary after it. -/
def tldHere (cs : List Char) : Option (List Char × List Char) :=
  let run := cs.takeWhile Char.isAlpha
  let rest := cs.dropWhile Char.isAlpha
  if 2 ≤ run.length ∧ boundaryAfter rest then some (run, rest) else none

/-- Body of the domain pattern: the regex `+` is greedy, so the largest
label count whose remainder forms a valid TLD wins. -/
def domainCore (cs : List Char) : Option (List Char × List Char) :=
  (labelChain cs).reverse.findSome? fun pr =>
    (tldHere pr.2).map fun t => (pr.1 ++ t.1, t.2)

/-- The domain pattern at one start position. -/
def domainHere (prev : Option Char) (cs : List Char) : Option (List Char × List Char) :=
  if boundaryBefore prev then domainCore cs else none

/-- `re.findall` for a matcher `m`: scan start positions left to right,
emit each (non-overlapping) match and resume after it.  `prev` carries the
character before the current position for the `\b` tests; fuel is the
remaining input length plus one (every step consumes at least one
character, matches being nonempty for both patterns). -/
def reFindAllAux (m : Option Char → List Char → Option (List Char × List Char)) :
    Nat → Option Char → List Char → List (List Char)
  | 0, _, _ => []
  | _ + 1, _, [] => []
  | fuel + 1, prev, c :: cs =>
    match m prev (c :: cs) with
    | some (w, rest) => w :: reFindAllAux m fuel w.getLast? rest
    | none => reFindAllAux m fuel (some c) cs

def reFindAll (m : Option Char → List Char → Option (List Char × List Char))
    (s : String) : List String :=
  (reFindAllAux m (s.length + 1) none s.data).map String.mk

/-- `re.findall(ip_pattern, query)`. -/
def ipFindAll (query : String) : List String := reFindAll ipHere query

/-- `re.findall(domain_pattern, query)`. -/
def domainFindAll (query : String) : List String := reFindAll domainHere query

/-- The fixed exclusion list of `_extract_target`. -/
def excludedTargets : List String := ["example.com", "localhost", "127.0.0.1"]

/-- `_extract_target`: first IP-pattern match if any, else the first
domain-pattern match that is not excluded (the Python `for` loop over
`domain_matches` with its final `return None` is exactly `find?`). -/
def extract_target (query : String) : Option String :=
  match ipFindAll query with
  | m :: _ => some m
  | [] => (domainFindAll query).find? fun d => ¬ excludedTargets.contains d

/-! ### Session memory (`memory.py`)

Disk persistence is an external collaborator; only the in-memory state is
embedded.  `datetime.now()` values are supplied as the `now` parameter.
Python dictionaries with free-form values (`evidence`, `context`) are
modelled as string association lists. -/

structure Finding where
  id : String
  timestamp : String
  target : String
  type : String
  severity : String
  description : String
  evidence : List (String × String)
  recommendations : List String
deriving DecidableEq

structure ToolExecution where
  timestamp : String
  tool : String
  command : String
  target : String
  output : String
  exit_code : Int
  duration_seconds : Nat
deriving DecidableEq

structure SessionMemory where
  session_id : String
  created_at : String
  updated_at : String
  conversation_history : List (String × String)
  findings : List Finding
  tool_executions : List ToolExecution
  context : List (String × String)
deriving DecidableEq

/-- `MemoryManager`'s in-memory state: the current session, if any. -/
structure MemoryState where
  current_session : Option SessionMemory
deriving DecidableEq

/-- `MemoryManager.create_session` (generated id from the timestamp). -/
def create_session (now : String) (_st : MemoryState) : MemoryState :=
  ⟨some ⟨"session_" ++ now, now, now, [], [], [], []⟩⟩

/-- The `if self.current_session is None: self.create_session()` guard
shared by all the `add_*` methods and `process_query`. -/
def ensure_session (now : String) (st : MemoryState) : MemoryState :=
  match st.current_session with
  | some _ => st
  | none => create_session now st

/-- The current session; the `none` branch is unreachable after
`ensure_session` (Python would raise `AttributeError` there). -/
def theSession (st : MemoryState) : SessionMemory :=
  st.current_session.getD ⟨"", "", "", [], [], [], []⟩

/-- `MemoryManager.add_conversation`. -/
def add_conversation (now role content : String) (st : MemoryState) : MemoryState :=
  let st1 := ensure_session now st
  ⟨some { theSession st1 with
          conversation_history := (theSession st1).conversation_history ++ [(role, content)]
          updated_at := now }⟩

/-- `MemoryManager.add_finding`. -/
def add_finding (now : String) (f : Finding) (st : MemoryState) : MemoryState :=
  let st1 := ensure_session now st
  ⟨some { theSession st1 with
          findings := (theSession st1).findings ++ [f]
          updated_at := now }⟩

/-- `MemoryManager.add_tool_execution`. -/
def add_tool_execution (now : String) (e : ToolExecution) (st : MemoryState) : MemoryState :=
  let st1 := ensure_session now st
  ⟨some { theSession st1 with
          tool_executions := (theSession st1).tool_executions ++ [e]
          updated_at := now }⟩

/-- `MemoryManager.save_session` without arguments: refresh `updated_at`
and write to disk (the write is external; its internal `try` means it
never raises). -/
def save_session (now : String) (st : MemoryState) : MemoryState :=
  ⟨st.current_session.map fun s => { s with updated_at := now }⟩

/-- The last `n` elements of a list (Python's `l[-n:]` for `n > 0`). -/
def takeLast (n : Nat) (l : List α) : List α := l.drop (l.length - n)

/-- The dictionary `MemoryManager.get_context` assembles for the LLM. -/
structure LLMContext where
  conversation_history : List (String × String)
  recent_findings : List Finding
  recent_tool_executions : List ToolExecution
  total_findings : Nat
  session_id : String
  context : List (String × String)
deriving DecidableEq

/-- `MemoryManager.get_context` (the no-session branch returns an empty
dictionary, modelled as the all-empty context). -/
def get_context (max_history : Nat) (st : MemoryState) : LLMContext :=
  match st.current_session with
  | none => ⟨[], [], [], 0, "", []⟩
  | some s =>
    ⟨takeLast max_history s.conversation_history,
     takeLast 5 s.findings,
     takeLast 5 s.tool_executions,
     s.findings.length,
     s.session_id,
     s.context⟩

/-! ### Plugin results and plugins (`plugins/base.py`, `agent.py`)

A `PluginResult` is the Python result dictionary; the orchestrator reads
the keys `success`, `plugin`, `error`, `findings`, `raw_result` and
`suggested_exploits`; the nmap plugin additionally writes `target`,
`scan_type` and `open_ports`.  An `Option` field is `none` when the key
is absent.  `raw_result` holds the string form of the raw payload (the
orchestrator only ever stringifies it). -/

structure PortInfo where
  port : Option String
  service : Option String
  version : Option String
deriving DecidableEq

structure FindingData where
  target : Option String
  type : Option String
  severity : Option String
  description : Option String
  evidence : Option (List (String × String))
  recommendations : Option (List String)
  port : Option String
  service : Option String
  version : Option String
deriving DecidableEq

def emptyFindingData : FindingData :=
  ⟨none, none, none, none, none, none, none, none, none⟩

structure PluginResult where
  success : Option Bool
  plugin : Option String
  error : Option String
  findings : Option (List FindingData)
  raw_result : Option String
  suggested_exploits : Option (List String)
  target : Option String
  scan_type : Option String
  open_ports : Option (List PortInfo)
deriving DecidableEq

def emptyResult : PluginResult :=
  ⟨none, none, none, none, none, none, none, none, none⟩

/-- Python truthiness of `result.get("success")` (absent key → `None` →
falsy). -/
def truthySuccess (b : Option Bool) : Bool := b.getD false

/-- Python's `a or b` for an optional string `a` (`None` and `""` are
falsy). -/
def pyOrStr (a : Option String) (b : String) : String :=
  match a with
  | some s => if s = "" then b else s
  | none => b

/-- A plugin: name, match predicate, execution routine.  `execute` may
fail (`Except.error` models an uncaught Python exception crossing the
plugin boundary). -/
structure RequestContext where
  query : String
  target : Option String
  findings : List Finding
  open_ports : List PortInfo
  conversation_history : List (String × String)
deriving DecidableEq

structure Plugin where
  name : String
  matchesQuery : String → Bool
  execute : RequestContext → Except String PluginResult

/-! ### Orchestrator (`OrchestratorAgent.process_query` and helpers) -/

/-- `_extract_open_ports_from_memory`: `open_port` findings, projected
through their evidence dictionaries. -/
def extract_open_ports_from_memory (st : MemoryState) : List PortInfo :=
  match st.current_session with
  | none => []
  | some s =>
    (s.findings.filter fun f => f.type = "open_port").map fun f =>
      ⟨(f.evidence.find? fun kv => kv.1 = "port").map Prod.snd,
       some ((((f.evidence.find? fun kv => kv.1 = "service").map Prod.snd)).getD ""),
       some ((((f.evidence.find? fun kv => kv.1 = "version").map Prod.snd)).getD "")⟩

/-- The execution context built once per query (`context = {...}`). -/
def request_context (query : String) (target : Option String) (st : MemoryState) :
    RequestContext :=
  ⟨query, target, (theSession st).findings, extract_open_ports_from_memory st,
   takeLast 5 (theSession st).conversation_history⟩

/-- `_build_planning_prompt`. -/
def build_planning_prompt (query : String) (ctx : RequestContext) : String :=
  let head := ["You are an AI assistant helping with penetration testing operations.",
               "Analyze the user's request and determine what tools and actions are needed.",
               "",
               "User query: " ++ query]
  let tgt := match ctx.target with
             | some t => if t = "" then [] else ["Target: " ++ t]
             | none => []
  let fnd := if ctx.findings.isEmpty then []
             else "\nRecent findings:" ::
               (ctx.findings.take 5).map fun f => "- " ++ f.type ++ ": " ++ f.description
  String.intercalate "\n"
    (head ++ tgt ++ fnd ++ ["\nWhat tools should be executed? Provide a brief plan."])

/-- The Finding record built from one payload dictionary
(`process_query`, recording loop).  `datetime.now().timestamp()` and
`datetime.now().isoformat()` are both rendered as `now`.  Note the
Python expression `target or finding_data.get("target", "")`: the
pipeline target wins whenever it is truthy. -/
def mkFinding (now : String) (target : Option String) (pluginName : String)
    (fd : FindingData) : Finding :=
  { id := pluginName ++ "_" ++ now
    timestamp := now
    target := pyOrStr target (fd.target.getD "")
    type := fd.type.getD "unknown"
    severity := fd.severity.getD "info"
    description := fd.description.getD ""
    evidence := fd.evidence.getD []
    recommendations := fd.recommendations.getD [] }

/-- Stand-in for Python's `str(...)` on a result dictionary (the exact
rendering is irrelevant to the pipeline; it is only stored). -/
def reprResult (pr : PluginResult) : String :=
  "result " ++ (pr.plugin.getD "") ++ " " ++ (pr.error.getD "")

/-- The ToolExecution record built when a result carries `raw_result`. -/
def mkExecution (now : String) (target : Option String) (pluginName raw : String)
    (pr : PluginResult) : ToolExecution :=
  { timestamp := now
    tool := pluginName
    command := raw
    target := pyOrStr target ""
    output := reprResult pr
    exit_code := if truthySuccess pr.success then 0 else 1
    duration_seconds := 0 }

/-- The error entry appended when a plugin raises
(`except Exception as e` in the plugin loop). -/
def mkErrorResult (pluginName e : String) : PluginResult :=
  { emptyResult with success := some false, plugin := some pluginName, error := some e }

/-- One iteration of the plugin loop of `process_query`: run the plugin,
append its result, record findings and the tool execution; on an
exception append the error entry instead and leave the session alone. -/
def pluginStep (now : String) (target : Option String) (ctx : RequestContext)
    (acc : List PluginResult × MemoryState) (p : Plugin) :
    List PluginResult × MemoryState :=
  match p.execute ctx with
  | Except.ok pr =>
    let results := acc.1 ++ [pr]
    let st1 :=
      match pr.findings with
      | some fs => fs.foldl (fun st fd => add_finding now (mkFinding now target p.name fd) st) acc.2
      | none => acc.2
    let st2 :=
      match pr.raw_result with
      | some raw => add_tool_execution now (mkExecution now target p.name raw pr) st1
      | none => st1
    (results, st2)
  | Except.error e => (acc.1 ++ [mkErrorResult p.name e], acc.2)

/-- `_generate_response_summary`. -/
def generate_response_summary (query : String) (results : List PluginResult)
    (st : MemoryState) : String :=
  let head := ["Processed query: " ++ query ++ "\n"]
  let body :=
    if ¬ results.isEmpty then
      "Execution results:" ::
        results.flatMap fun r =>
          let pluginName := r.plugin.getD "unknown"
          let status := if truthySuccess r.success then "✓" else "✗"
          [status ++ " " ++ pluginName]
          ++ (match r.findings with
              | some fs => ["  Found " ++ toString fs.length ++ " finding(s)"]
              | none => [])
          ++ (match r.suggested_exploits with
              | some es => ["  Suggested " ++ toString es.length ++ " exploit(s)"]
              | none => [])
    else ["No matching plugins found for this query."]
  let findings_count := match st.current_session with
                        | some s => s.findings.length
                        | none => 0
  let tail :=
    if findings_count > 0 then
      ["\nTotal findings in session: " ++ toString findings_count,
       "Consider running additional scans or generating a report."]
    else []
  String.intercalate "\n" (head ++ body ++ tail)

/-- The result envelope returned by `process_query`.  An `Option` field
is `none` when the corresponding dictionary key is absent (for the
`target` key, a present-but-`None` value in the success envelope is also
rendered as `none`). -/
structure Envelope where
  success : Bool
  error : Option String
  target : Option String
  requires_confirmation : Option Bool
  action : Option String
  message : Option String
  query : Option String
  plugins_executed : Option (List String)
  results : Option (List PluginResult)
  response : Option String
  llm_planning : Option String
deriving DecidableEq

def emptyEnvelope : Envelope :=
  ⟨false, none, none, none, none, none, none, none, none, none, none⟩

/-- The out-of-scope rejection envelope (`process_query`, scope gate). -/
def scope_reject_envelope (t : String) : Envelope :=
  { emptyEnvelope with
    success := false
    error := some ("Target " ++ t ++ " is out of scope")
    target := some t }

/-- The awaiting-confirmation envelope (`process_query`, safety gate). -/
def confirm_envelope (query : String) : Envelope :=
  { emptyEnvelope with
    success := false
    requires_confirmation := some true
    action := some query
    message := some "This action requires explicit confirmation. Please confirm to proceed." }

/-- The failure envelope of the top-level `except` handler. -/
def pipeline_error_envelope (query e : String) : Envelope :=
  { emptyEnvelope with
    success := false
    error := some ("Error processing query: " ++ e)
    query := some query }

/-- `process_query` from the safety gate onward (the part of the Python
function after the scope check; split out so that the scope gate's
independence can be stated).  `llm` is the opaque text generator; its
`Except.error` is the only exception source inside the Python `try`
block that the per-plugin handler does not already swallow. -/
def process_query_after_scope (cfg : OrchestratorConfig) (plugins : List Plugin)
    (llm : String → LLMContext → Except String String) (now : String)
    (st2 : MemoryState) (query : String) (target : Option String)
    (require_confirmation : Option Bool) : Envelope × MemoryState :=
  if is_dangerous_action cfg query
      && require_confirmation.getD cfg.safety.require_confirmation then
    (confirm_envelope query, st2)
  else
    let ctx := request_context query target st2
    let llm_context := get_context 10 st2
    match llm (build_planning_prompt query ctx) llm_context with
    | Except.error e =>
      let msg := "Error processing query: " ++ e
      (pipeline_error_envelope query e, add_conversation now "assistant" msg st2)
    | Except.ok llm_response =>
      let matching_plugins := plugins.filter fun p => p.matchesQuery query
      let loop := matching_plugins.foldl (pluginStep now target ctx) ([], st2)
      let results := loop.1
      let st3 := loop.2
      let response := generate_response_summary query results st3
      let st4 := add_conversation now "assistant" response st3
      let st5 := save_session now st4
      ({ emptyEnvelope with
         success := true
         query := some query
         target := target
         plugins_executed := some (matching_plugins.map Plugin.name)
         results := some results
         response := some response
         llm_planning := some llm_response }, st5)

/-- `OrchestratorAgent.process_query`: ensure a session, log the user
turn, extract a target, reject out-of-scope targets, then hand over to
the safety gate and the plugin pipeline. -/
def after_user_turn (now query : String) (st0 : MemoryState) : MemoryState :=
  add_conversation now "user" query (ensure_session now st0)

def process_query (cfg : OrchestratorConfig) (plugins : List Plugin)
    (llm : String → LLMContext → Except String String) (now : String)
    (st0 : MemoryState) (query : String) (require_confirmation : Option Bool) :
    Envelope × MemoryState :=
  let st2 := after_user_turn now query st0
  let target := extract_target query
  match target with
  | some t =>
    if ¬ check_scope cfg t then
      let error_msg := "Target " ++ t ++ " is out of scope"
      (scope_reject_envelope t,
       add_conversation now "assistant" ("Error: " ++ error_msg) st2)
    else
      process_query_after_scope cfg plugins llm now st2 query target require_confirmation
  | none =>
    process_query_after_scope cfg plugins llm now st2 query target require_confirmation

/-! ### The nmap plugin (`plugins/nmap_plugin.py`)

The remote scan capabilities (`NmapWrapper.quick_scan` / `full_scan` /
`scan_http_services`) are opaque collaborators, passed as functions
returning the scan dictionary. -/

structure ScanResult where
  success : Option Bool
  open_ports : Option (List PortInfo)
  raw : String
deriving DecidableEq

/-- `NmapPlugin.matches`. -/
def nmap_matches (query : String) : Bool :=
  let query_lower := lowerStr query
  ["scan", "port", "nmap", "service", "open port", "port scan"].any fun k =>
    infixOf k.data query_lower.data

/-- `NmapPlugin.execute`.  The missing-target case is reported as a
failed result, not raised. -/
def nmap_execute (quick full http : String → ScanResult) (ctx : RequestContext) :
    Except String PluginResult :=
  let target := ctx.target.getD ""
  if target = "" then
    Except.ok { emptyResult with success := some false, error := some "No target specified" }
  else
    let query := lowerStr ctx.query
    let scan_type :=
      if infixOf "full".data query.data || infixOf "all ports".data query.data then "full"
      else if infixOf "http".data query.data || infixOf "web".data query.data then "http"
      else "quick"
    let result :=
      if scan_type = "full" then full target
      else if scan_type = "http" then http target
      else quick target
    let findings := (result.open_ports.getD []).map fun pi =>
      { emptyFindingData with
        type := some "open_port"
        target := some target
        port := pi.port
        service := some (pi.service.getD "")
        version := some (pi.version.getD "")
        severity := some "info" }
    Except.ok
      { success := some (result.success.getD true)
        plugin := some "nmap"
        error := none
        findings := some findings
        raw_result := some result.raw
        suggested_exploits := none
        target := some target
        scan_type := some scan_type
        open_ports := some (result.open_ports.getD []) }

def nmapPlugin (quick full http : String → ScanResult) : Plugin :=
  ⟨"nmap", nmap_matches, nmap_execute quick full http⟩

/-! ### Spec-side helpers used to state the claims -/

/-- The per-plugin result entry as the dispatcher records it: the
plugin's own result, or the synthesized error entry when it raises. -/
def resultOf (ctx : RequestContext) (p : Plugin) : PluginResult :=
  match p.execute ctx with
  | Except.ok pr => pr
  | Except.error e => mkErrorResult p.name e

/-- The Findings one plugin's run appends to the session. -/
def recordedFindings (now : String) (target : Option String) (ctx : RequestContext)
    (p : Plugin) : List Finding :=
  match p.execute ctx with
  | Except.ok pr => (pr.findings.getD []).map (mkFinding now target p.name)
  | Except.error _ => []

/-- The ToolExecutions one plugin's run appends to the session. -/
def recordedExecutions (now : String) (target : Option String) (ctx : RequestContext)
    (p : Plugin) : List ToolExecution :=
  match p.execute ctx with
  | Except.ok pr =>
    match pr.raw_result with
    | some raw => [mkExecution now target p.name raw pr]
    | none => []
  | Except.error _ => []

/-- Did the query pass (or skip) the scope gate? -/
def scope_gate (cfg : OrchestratorConfig) (query : String) : Bool :=
  match extract_target query with
  | none => true
  | some t => check_scope cfg t

/-- Does the safety gate stop the query (dangerous and confirmation
required, with the per-call override applied)? -/
def danger_gate (cfg : OrchestratorConfig) (query : String) (rc : Option Bool) : Bool :=
  is_dangerous_action cfg query && rc.getD cfg.safety.require_confirmation

/-- The IP pattern applied at start position `i` of `query` (the
character before position `i` feeds the leading `\b`). -/
def ipAtPos (query : String) (i : Nat) : Option String :=
  (ipHere (if i = 0 then none else query.data[i - 1]?) (query.data.drop i)).map
    fun pr => String.mk pr.1

/-! ### Concrete fixtures for the closed instances -/

def llmOk : String → LLMContext → Except String String := fun _ _ => Except.ok "plan"

def emptyMemory : MemoryState := ⟨none⟩

/-- A config with scope checking off and the default safety settings. -/
def openScopeConfig : OrchestratorConfig := ⟨⟨[], [], false⟩, defaultConfig.safety⟩

/-- A finding payload that names its own target. -/
def payloadWithTarget : FindingData :=
  { emptyFindingData with
    target := some "9.9.9.9"
    type := some "web_vulnerability"
    severity := some "high"
    description := some "demo finding" }

/-- A plugin that matches everything and reports `payloadWithTarget`. -/
def reportingPlugin : Plugin :=
  ⟨"reporter", fun _ => true,
   fun _ => Except.ok { emptyResult with success := some true
                                         findings := some [payloadWithTarget] }⟩

/-- A plugin that matches everything and raises. -/
def failingPlugin : Plugin :=
  ⟨"boom", fun _ => true, fun _ => Except.error "kaput"⟩

/-- A canned scan outcome for the nmap collaborator stubs. -/
def stubScanResult : ScanResult :=
  ⟨some true, some [⟨some "80", some "http", some "1.0"⟩], "raw scan output"⟩

def stubScanner : String → ScanResult := fun _ => stubScanResult

/-! ## Helper lemmas -/

theorem isPrefixOf_iff_exists (l₁ l₂ : List Char) :
    l₁.isPrefixOf l₂ = true ↔ ∃ t, l₂ = l₁ ++ t := by
  rw [ List.isPrefixOf_iff_prefix]
  exact ⟨fun ⟨t, ht⟩ => ⟨t, ht.symm⟩, fun ⟨t, ht⟩ => ⟨t, ht.symm⟩⟩

theorem infixOf_iff_exists (needle hay : List Char) :
    infixOf needle hay = true ↔ ∃ pre post, hay = pre ++ needle ++ post := by
  induction hay with
  | nil =>
    simp only [infixOf, List.isEmpty_iff]
    constructor
    · rintro rfl; exact ⟨[], [], rfl⟩
    · rintro ⟨pre, post, h⟩
      rcases List.append_eq_nil.mp (List.append_eq_nil.mp h.symm).1 with ⟨-, h2⟩
      exact h2
  | cons c rest ih =>
    simp only [infixOf, Bool.or_eq_true, isPrefixOf_iff_exists, ih]
    constructor
    · rintro (⟨t, ht⟩ | ⟨pre, post, h⟩)
      · exact ⟨[], t, by simpa using ht⟩
      · exact ⟨c :: pre, post, by simp [h]⟩
    · rintro ⟨pre, post, h⟩
      match pre, h with
      | [], h => exact Or.inl ⟨post, by simpa using h⟩
      | p :: pre, h =>
        simp only [List.cons_append, List.cons.injEq] at h
        exact Or.inr ⟨pre, post, h.2⟩

theorem isSuffixOf_iff_exists (l₁ l₂ : List Char) :
    l₁.isSuffixOf l₂ = true ↔ ∃ t, l₂ = t ++ l₁ := by
  rw [ List.isSuffixOf_iff_suffix]
  exact ⟨fun ⟨t, ht⟩ => ⟨t, ht.symm⟩, fun ⟨t, ht⟩ => ⟨t, ht.symm⟩⟩

theorem ip_network_masked {s : String} {n : IPv4Net} (h : ip_network s = some n) :
    n.address % 2 ^ (32 - n.prefixlen) = 0 := by
  rcases e : splitOnChar '/' s.data with - | ⟨addr, - | ⟨pfx, - | ⟨x, xs⟩⟩⟩
  · simp [ip_network, e] at h
  · rcases e2 : parseIPv4 (String.mk addr) with - | a
    · simp [ip_network, e, e2] at h
    · simp only [ip_network, e, e2, Option.map_some'] at h
      rw [← Option.some.injEq] at h
      cases Option.some.inj h
      exact Nat.mod_one a
  · rcases e2 : parseIPv4 (String.mk addr) with - | a
    · simp [ip_network, e, e2] at h
    · rcases e3 : parsePrefixPart pfx with - | p
      · simp [ip_network, e, e2, e3] at h
      · simp only [ip_network, e, e2, e3, Option.some_bind, Option.pure_def] at h
        cases Option.some.inj h
        exact Nat.mul_mod_left _ _
  · simp [ip_network, e] at h

theorem inNetwork_iff_range {n : IPv4Net} (hm : n.address % 2 ^ (32 - n.prefixlen) = 0)
    (a : Nat) :
    inNetwork a n = true ↔ n.address ≤ a ∧ a ≤ broadcastOf n := by
  have hK : 0 < 2 ^ (32 - n.prefixlen) := Nat.pos_pow_of_pos _ (by decide)
  simp only [inNetwork, broadcastOf, decide_eq_true_eq]
  generalize hKe : 2 ^ (32 - n.prefixlen) = K at hm hK
  constructor
  · intro h
    have h1 : a / K * K ≤ a := Nat.div_mul_le_self a K
    have h2 : K * (a / K) + a % K = a := Nat.div_add_mod a K
    have h3 : a % K < K := Nat.mod_lt _ hK
    have h4 : K * (a / K) = a / K * K := Nat.mul_comm _ _
    generalize a / K * K = t at h h1 h2 h4
    omega
  · rintro ⟨h1, h2⟩
    obtain ⟨m, hm2⟩ := Nat.dvd_of_mod_eq_zero hm
    have hd : a - n.address < K := by omega
    have ha : a = K * m + (a - n.address) := by omega
    rw [ha, Nat.mul_add_div hK, Nat.div_eq_of_lt hd, Nat.add_zero, Nat.mul_comm]
    omega

theorem subnet_of_iff_range {nT nR : IPv4Net}
    (hT : nT.address % 2 ^ (32 - nT.prefixlen) = 0)
    (hR : nR.address % 2 ^ (32 - nR.prefixlen) = 0) :
    subnet_of nT nR = true ↔ ∀ a, inNetwork a nT = true → inNetwork a nR = true := by
  simp only [subnet_of, Bool.and_eq_true, decide_eq_true_eq]
  constructor
  · rintro ⟨h1, h2⟩ a ha
    rw [inNetwork_iff_range hT] at ha
    rw [inNetwork_iff_range hR]
    omega
  · intro h
    have hKT : 0 < 2 ^ (32 - nT.prefixlen) := Nat.pos_pow_of_pos _ (by decide)
    have hself : inNetwork nT.address nT = true := by
      rw [inNetwork_iff_range hT]
      simp [broadcastOf]
    have hbc : inNetwork (broadcastOf nT) nT = true := by
      rw [inNetwork_iff_range hT]
      simp [broadcastOf]
    have h1 := (inNetwork_iff_range hR _).mp (h _ hself)
    have h2 := (inNetwork_iff_range hR _).mp (h _ hbc)
    unfold broadcastOf at h1 h2 ⊢
    omega

theorem toLower_toNat_of_upper {n : Nat} (h1 : 97 ≤ n) (h2 : n ≤ 122) :
    (Char.ofNat n).toNat = n := by
  interval_cases n <;> decide

theorem char_toLower_idem (c : Char) : c.toLower.toLower = c.toLower := by
  unfold Char.toLower
  by_cases h : c.toNat ≥ 65 ∧ c.toNat ≤ 90
  · rw [if_pos h]
    rw [toLower_toNat_of_upper (by omega) (by omega)]
    rw [if_neg (by omega)]
  · rw [if_neg h, if_neg h]

theorem lowerStr_idem (s : String) : lowerStr (lowerStr s) = lowerStr s := by
  simp only [lowerStr, List.map_map]
  congr 1
  exact List.map_congr_left fun c _ => char_toLower_idem c

/-! ## The claims -/

/-- C6: when strict mode is disabled the scope check accepts every
target string, whatever the two allow-lists contain — no rule is
consulted. -/
theorem c6_nonstrict_scope_always_true (ips doms : List String)
    (safety : SafetyConfig) (target : String) :
    check_scope ⟨⟨ips, doms, false⟩, safety⟩ target = true := by
  simp [check_scope]

/-- C7: in strict mode the domain rule accepts a target exactly when the
target equals the entry or ends with `.` followed by the entry; rule
`example.com` accepts `api.example.com` and rejects `notexample.com`;
and in strict mode the scope check is the disjunction of the IP rules
and this domain rule. -/
theorem c7_domain_rule_suffix_exact (rule target : String) :
    (domainRuleMatch rule target = true ↔
      target = rule ∨ ∃ pre : List Char, target.data = pre ++ '.' :: rule.data)
    ∧ domainRuleMatch "example.com" "api.example.com" = true
    ∧ domainRuleMatch "example.com" "notexample.com" = false
    ∧ ∀ ips safety,
        check_scope ⟨⟨ips, [rule], true⟩, safety⟩ target
          = ((ips.any fun r => ipRuleMatch r target) || domainRuleMatch rule target) := by
  refine ⟨?_, by decide, by decide, ?_⟩
  · simp only [domainRuleMatch, Bool.or_eq_true, decide_eq_true_eq,
      isSuffixOf_iff_exists]
  · intro ips safety
    by_cases h : (ips.any fun r => ipRuleMatch r target) = true <;>
      simp [check_scope, h]

/-- C3 counterexample: with configured keyword `EXPLOIT` and query
`run exploit now`, case-insensitive comparison of both sides matches,
but `_is_dangerous_action` returns false — the keyword is compared
verbatim, only the query is lowercased. -/
theorem c3_counterexample_keyword_case :
    is_dangerous_action ⟨⟨[], [], true⟩, ⟨true, ["EXPLOIT"]⟩⟩ "run exploit now" = false
    ∧ ciContains "EXPLOIT" "run exploit now" = true := by decide

/-- C3 (amended): the check returns true exactly when some configured
keyword occurs verbatim as a substring of the lowercase-folded query; it
is insensitive to the query's case (folding the query first changes
nothing), and the spec's own example — query `Run EXPLOIT now`, keyword
`exploit` — matches. -/
theorem c3_amended_keyword_verbatim_query_folded (cfg : OrchestratorConfig)
    (query : String) :
    (is_dangerous_action cfg query = true ↔
      ∃ k ∈ cfg.safety.dangerous_actions,
        ∃ pre post, (lowerStr query).data = pre ++ k.data ++ post)
    ∧ is_dangerous_action cfg (lowerStr query) = is_dangerous_action cfg query
    ∧ is_dangerous_action ⟨⟨[], [], true⟩, ⟨true, ["exploit"]⟩⟩ "Run EXPLOIT now" = true := by
  refine ⟨?_, ?_, by decide⟩
  · simp only [is_dangerous_action, List.any_eq_true, infixOf_iff_exists]
  · simp only [is_dangerous_action, lowerStr_idem]

/-- C2: in strict mode, a CIDR-form allowed-IP rule accepts a
slash-carrying target exactly when every address of the target's parsed
network lies in the rule's parsed network (subnet containment), accepts
a slash-free target exactly when its parsed address lies in the rule's
network range, and any parse failure on either side makes this rule a
non-match while the remaining rules are still tried. -/
theorem c2_cidr_rule_containment (R T : String) (hR : R.data.contains '/' = true) :
    (T.data.contains '/' = true →
      (ipRuleMatch R T = true ↔
        ∃ nR nT, ip_network R = some nR ∧ ip_network T = some nT ∧
          ∀ a, inNetwork a nT = true → inNetwork a nR = true))
    ∧ (T.data.contains '/' = false →
      (ipRuleMatch R T = true ↔
        ∃ nR a, ip_network R = some nR ∧ parseIPv4 T = some a ∧
          nR.address ≤ a ∧ a ≤ broadcastOf nR))
    ∧ (∀ rest doms safety,
        (ip_network R = none
          ∨ (T.data.contains '/' = true ∧ ip_network T = none)
          ∨ (T.data.contains '/' = false ∧ parseIPv4 T = none)) →
        check_scope ⟨⟨R :: rest, doms, true⟩, safety⟩ T
          = check_scope ⟨⟨rest, doms, true⟩, safety⟩ T) := by
  have hRm : '/' ∈ R.data := by simpa using hR
  refine ⟨?_, ?_, ?_⟩
  · intro hT
    have hTm : '/' ∈ T.data := by simpa using hT
    rcases eR : ip_network R with - | nR
    · simp [ipRuleMatch, hRm, hTm, eR]
    rcases eT : ip_network T with - | nT
    · simp [ipRuleMatch, hRm, hTm, eR, eT]
    rw [show ipRuleMatch R T = subnet_of nT nR by simp [ipRuleMatch, hRm, hTm, eR, eT]]
    rw [subnet_of_iff_range (ip_network_masked eT) (ip_network_masked eR)]
    constructor
    · exact fun h => ⟨nR, nT, rfl, rfl, h⟩
    · rintro ⟨nR', nT', h1, h2, h⟩
      cases Option.some.inj h1
      cases Option.some.inj h2
      exact h
  · intro hT
    have hTm : '/' ∉ T.data := by simpa using hT
    rcases eR : ip_network R with - | nR
    · simp [ipRuleMatch, hRm, hTm, eR]
    rcases eA : parseIPv4 T with - | a
    · simp [ipRuleMatch, hRm, hTm, eR, eA]
    rw [show ipRuleMatch R T = inNetwork a nR by simp [ipRuleMatch, hRm, hTm, eR, eA]]
    rw [inNetwork_iff_range (ip_network_masked eR)]
    constructor
    · exact fun h => ⟨nR, a, rfl, rfl, h⟩
    · rintro ⟨nR', a', h1, h2, h⟩
      cases Option.some.inj h1
      cases Option.some.inj h2
      exact h
  · intro rest doms safety hfail
    have hmiss : ipRuleMatch R T = false := by
      rcases hfail with h | ⟨hT, h⟩ | ⟨hT, h⟩
      · simp [ipRuleMatch, hRm, h]
      · have hTm : '/' ∈ T.data := by simpa using hT
        rcases eR2 : ip_network R with - | nR2 <;> simp [ipRuleMatch, hRm, hTm, h, eR2]
      · have hTm : '/' ∉ T.data := by simpa using hT
        rcases eR2 : ip_network R with - | nR2 <;> simp [ipRuleMatch, hRm, hTm, h, eR2]
    simp [check_scope, List.any_cons, hmiss]

/-- C2 witness: rule `10.0.0.0/8` contains target network `10.1.2.0/24`
and target address `10.1.2.3`; an unparsable rule is skipped and a later
rule still matches. -/
theorem c2_cidr_rule_containment_witness :
    (∃ nR nT, ip_network "10.0.0.0/8" = some nR ∧ ip_network "10.1.2.0/24" = some nT ∧
      ∀ a, inNetwork a nT = true → inNetwork a nR = true)
    ∧ (∃ nR a, ip_network "10.0.0.0/8" = some nR ∧ parseIPv4 "10.1.2.3" = some a ∧
        nR.address ≤ a ∧ a ≤ broadcastOf nR)
    ∧ check_scope ⟨⟨["999.0.0.0/8", "10.0.0.0/8"], [], true⟩, ⟨true, []⟩⟩ "10.1.2.3"
        = check_scope ⟨⟨["10.0.0.0/8"], [], true⟩, ⟨true, []⟩⟩ "10.1.2.3" := by
  refine ⟨?_, ?_, ?_⟩
  · exact ((c2_cidr_rule_containment "10.0.0.0/8" "10.1.2.0/24" (by decide)).1
      (by decide)).mp (by decide)
  · exact ((c2_cidr_rule_containment "10.0.0.0/8" "10.1.2.3" (by decide)).2.1
      (by decide)).mp (by decide)
  · exact (c2_cidr_rule_containment "999.0.0.0/8" "10.1.2.3" (by decide)).2.2
      ["10.0.0.0/8"] [] ⟨true, []⟩ (Or.inl (by decide))

@[simp] theorem findings_add_conversation (now r c : String) (st : MemoryState) :
    (theSession (add_conversation now r c st)).findings = (theSession st).findings := by
  rcases st with ⟨- | s⟩ <;>
    simp [add_conversation, ensure_session, create_session, theSession]

@[simp] theorem execs_add_conversation (now r c : String) (st : MemoryState) :
    (theSession (add_conversation now r c st)).tool_executions
      = (theSession st).tool_executions := by
  rcases st with ⟨- | s⟩ <;>
    simp [add_conversation, ensure_session, create_session, theSession]

@[simp] theorem conv_add_conversation (now r c : String) (st : MemoryState) :
    (theSession (add_conversation now r c st)).conversation_history
      = (theSession st).conversation_history ++ [(r, c)] := by
  rcases st with ⟨- | s⟩ <;>
    simp [add_conversation, ensure_session, create_session, theSession]

@[simp] theorem findings_add_finding (now : String) (f : Finding) (st : MemoryState) :
    (theSession (add_finding now f st)).findings = (theSession st).findings ++ [f] := by
  rcases st with ⟨- | s⟩ <;>
    simp [add_finding, ensure_session, create_session, theSession]

@[simp] theorem execs_add_finding (now : String) (f : Finding) (st : MemoryState) :
    (theSession (add_finding now f st)).tool_executions
      = (theSession st).tool_executions := by
  rcases st with ⟨- | s⟩ <;>
    simp [add_finding, ensure_session, create_session, theSession]

@[simp] theorem conv_add_finding (now : String) (f : Finding) (st : MemoryState) :
    (theSession (add_finding now f st)).conversation_history
      = (theSession st).conversation_history := by
  rcases st with ⟨- | s⟩ <;>
    simp [add_finding, ensure_session, create_session, theSession]

@[simp] theorem findings_add_tool_execution (now : String) (e : ToolExecution)
    (st : MemoryState) :
    (theSession (add_tool_execution now e st)).findings = (theSession st).findings := by
  rcases st with ⟨- | s⟩ <;>
    simp [add_tool_execution, ensure_session, create_session, theSession]

@[simp] theorem execs_add_tool_execution (now : String) (e : ToolExecution)
    (st : MemoryState) :
    (theSession (add_tool_execution now e st)).tool_executions
      = (theSession st).tool_executions ++ [e] := by
  rcases st with ⟨- | s⟩ <;>
    simp [add_tool_execution, ensure_session, create_session, theSession]

@[simp] theorem conv_add_tool_execution (now : String) (e : ToolExecution)
    (st : MemoryState) :
    (theSession (add_tool_execution now e st)).conversation_history
      = (theSession st).conversation_history := by
  rcases st with ⟨- | s⟩ <;>
    simp [add_tool_execution, ensure_session, create_session, theSession]

@[simp] theorem findings_save_session (now : String) (st : MemoryState) :
    (theSession (save_session now st)).findings = (theSession st).findings := by
  rcases st with ⟨- | s⟩ <;> simp [save_session, theSession]

@[simp] theorem execs_save_session (now : String) (st : MemoryState) :
    (theSession (save_session now st)).tool_executions
      = (theSession st).tool_executions := by
  rcases st with ⟨- | s⟩ <;> simp [save_session, theSession]

@[simp] theorem conv_save_session (now : String) (st : MemoryState) :
    (theSession (save_session now st)).conversation_history
      = (theSession st).conversation_history := by
  rcases st with ⟨- | s⟩ <;> simp [save_session, theSession]

@[simp] theorem findings_ensure_session (now : String) (st : MemoryState) :
    (theSession (ensure_session now st)).findings = (theSession st).findings := by
  rcases st with ⟨- | s⟩ <;> simp [ensure_session, create_session, theSession]

@[simp] theorem execs_ensure_session (now : String) (st : MemoryState) :
    (theSession (ensure_session now st)).tool_executions
      = (theSession st).tool_executions := by
  rcases st with ⟨- | s⟩ <;> simp [ensure_session, create_session, theSession]

@[simp] theorem conv_ensure_session (now : String) (st : MemoryState) :
    (theSession (ensure_session now st)).conversation_history
      = (theSession st).conversation_history := by
  rcases st with ⟨- | s⟩ <;> simp [ensure_session, create_session, theSession]

theorem findings_foldl_add_finding (now : String) (target : Option String)
    (pname : String) (fs : List FindingData) (st : MemoryState) :
    (theSession (fs.foldl (fun st fd => add_finding now (mkFinding now target pname fd) st) st)).findings
      = (theSession st).findings ++ fs.map (mkFinding now target pname) := by
  induction fs generalizing st with
  | nil => simp
  | cons fd fs ih => simp [ih]

theorem execs_foldl_add_finding (now : String) (target : Option String)
    (pname : String) (fs : List FindingData) (st : MemoryState) :
    (theSession (fs.foldl (fun st fd => add_finding now (mkFinding now target pname fd) st) st)).tool_executions
      = (theSession st).tool_executions := by
  induction fs generalizing st with
  | nil => simp
  | cons fd fs ih => simp [ih]

theorem conv_foldl_add_finding (now : String) (target : Option String)
    (pname : String) (fs : List FindingData) (st : MemoryState) :
    (theSession (fs.foldl (fun st fd => add_finding now (mkFinding now target pname fd) st) st)).conversation_history
      = (theSession st).conversation_history := by
  induction fs generalizing st with
  | nil => simp
  | cons fd fs ih => simp [ih]

theorem pluginStep_fst (now : String) (target : Option String) (ctx : RequestContext)
    (acc : List PluginResult × MemoryState) (p : Plugin) :
    (pluginStep now target ctx acc p).1 = acc.1 ++ [resultOf ctx p] := by
  rcases e : p.execute ctx with e' | pr <;> simp [pluginStep, resultOf, e]

theorem pluginStep_findings (now : String) (target : Option String)
    (ctx : RequestContext) (acc : List PluginResult × MemoryState) (p : Plugin) :
    (theSession (pluginStep now target ctx acc p).2).findings
      = (theSession acc.2).findings ++ recordedFindings now target ctx p := by
  rcases e : p.execute ctx with e' | pr
  · simp [pluginStep, recordedFindings, e]
  · rcases ef : pr.findings with - | fs <;> rcases er : pr.raw_result with - | raw <;>
      simp [pluginStep, recordedFindings, e, ef, er, findings_foldl_add_finding]

theorem pluginStep_execs (now : String) (target : Option String)
    (ctx : RequestContext) (acc : List PluginResult × MemoryState) (p : Plugin) :
    (theSession (pluginStep now target ctx acc p).2).tool_executions
      = (theSession acc.2).tool_executions ++ recordedExecutions now target ctx p := by
  rcases e : p.execute ctx with e' | pr
  · simp [pluginStep, recordedExecutions, e]
  · rcases ef : pr.findings with - | fs <;> rcases er : pr.raw_result with - | raw <;>
      simp [pluginStep, recordedExecutions, e, ef, er, execs_foldl_add_finding]

theorem pluginStep_conv (now : String) (target : Option String)
    (ctx : RequestContext) (acc : List PluginResult × MemoryState) (p : Plugin) :
    (theSession (pluginStep now target ctx acc p).2).conversation_history
      = (theSession acc.2).conversation_history := by
  rcases e : p.execute ctx with e' | pr
  · simp [pluginStep, e]
  · rcases ef : pr.findings with - | fs <;> rcases er : pr.raw_result with - | raw <;>
      simp [pluginStep, e, ef, er, conv_foldl_add_finding]

theorem pluginLoop_fst (now : String) (target : Option String) (ctx : RequestContext)
    (ps : List Plugin) (acc : List PluginResult × MemoryState) :
    (ps.foldl (pluginStep now target ctx) acc).1 = acc.1 ++ ps.map (resultOf ctx) := by
  induction ps generalizing acc with
  | nil => simp
  | cons p ps ih =>
    rw [List.foldl_cons, ih]
    rcases e : p.execute ctx with e' | pr <;>
      simp [pluginStep, resultOf, e, List.append_assoc]

theorem pluginLoop_findings (now : String) (target : Option String)
    (ctx : RequestContext) (ps : List Plugin) (acc : List PluginResult × MemoryState) :
    (theSession (ps.foldl (pluginStep now target ctx) acc).2).findings
      = (theSession acc.2).findings
          ++ ps.flatMap (recordedFindings now target ctx) := by
  induction ps generalizing acc with
  | nil => simp
  | cons p ps ih =>
    rw [List.foldl_cons, ih, pluginStep_findings, List.flatMap_cons, List.append_assoc]

theorem pluginLoop_execs (now : String) (target : Option String)
    (ctx : RequestContext) (ps : List Plugin) (acc : List PluginResult × MemoryState) :
    (theSession (ps.foldl (pluginStep now target ctx) acc).2).tool_executions
      = (theSession acc.2).tool_executions
          ++ ps.flatMap (recordedExecutions now target ctx) := by
  induction ps generalizing acc with
  | nil => simp
  | cons p ps ih =>
    rw [List.foldl_cons, ih, pluginStep_execs, List.flatMap_cons, List.append_assoc]

theorem pluginLoop_conv (now : String) (target : Option String)
    (ctx : RequestContext) (ps : List Plugin) (acc : List PluginResult × MemoryState) :
    (theSession (ps.foldl (pluginStep now target ctx) acc).2).conversation_history
      = (theSession acc.2).conversation_history := by
  induction ps generalizing acc with
  | nil => simp
  | cons p ps ih => rw [List.foldl_cons, ih, pluginStep_conv]

theorem process_query_scope_pass (cfg : OrchestratorConfig) (plugins : List Plugin)
    (llm : String → LLMContext → Except String String) (now : String)
    (st0 : MemoryState) (query : String) (rc : Option Bool)
    (hs : scope_gate cfg query = true) :
    process_query cfg plugins llm now st0 query rc
      = process_query_after_scope cfg plugins llm now (after_user_turn now query st0)
          query (extract_target query) rc := by
  unfold process_query
  rcases e : extract_target query with - | t
  · rfl
  · have hs2 : check_scope cfg t = true := by simpa [scope_gate, e] using hs
    simp [hs2]

/-- C1 counterexample: `exploit 1.2.3.4` contains the configured
dangerous keyword `exploit` and confirmation is required by default, yet
under the default (strict, empty) scope rules `process_query` returns
the out-of-scope rejection, not the requires-confirmation envelope —
the scope gate preempts the safety gate. -/
theorem c1_counterexample_scope_preempts_confirmation :
    is_dangerous_action defaultConfig "exploit 1.2.3.4" = true
    ∧ defaultConfig.safety.require_confirmation = true
    ∧ (process_query defaultConfig [] llmOk "T0" emptyMemory
        "exploit 1.2.3.4" none).1.requires_confirmation ≠ some true := by decide

/-- C1 (amended): for a dangerous query whose extracted target (if any)
passes the scope gate, when confirmation is required the pipeline halts
with the requires-confirmation envelope and the memory holds only the
logged user turn — the result does not depend on the plugin list or the
LLM, and no Finding or ToolExecution is appended. -/
theorem c1_amended_confirmation_halts_pipeline (cfg : OrchestratorConfig)
    (plugins : List Plugin) (llm : String → LLMContext → Except String String)
    (now : String) (st0 : MemoryState) (query : String) (rc : Option Bool)
    (hd : is_dangerous_action cfg query = true)
    (hc : rc.getD cfg.safety.require_confirmation = true)
    (hs : scope_gate cfg query = true) :
    process_query cfg plugins llm now st0 query rc
      = (confirm_envelope query, after_user_turn now query st0)
    ∧ (theSession (process_query cfg plugins llm now st0 query rc).2).findings
        = (theSession st0).findings
    ∧ (theSession (process_query cfg plugins llm now st0 query rc).2).tool_executions
        = (theSession st0).tool_executions := by
  have h1 : process_query cfg plugins llm now st0 query rc
      = (confirm_envelope query, after_user_turn now query st0) := by
    rw [process_query_scope_pass _ _ _ _ _ _ _ hs]
    simp [process_query_after_scope, hd, hc]
  refine ⟨h1, ?_, ?_⟩ <;> rw [h1] <;> simp [after_user_turn]

/-- C1 witness: the dangerous untargeted query `exploit the box` halts
with the confirmation envelope. -/
theorem c1_amended_witness :
    is_dangerous_action defaultConfig "exploit the box" = true
    ∧ scope_gate defaultConfig "exploit the box" = true
    ∧ (process_query defaultConfig [failingPlugin] llmOk "T0" emptyMemory
          "exploit the box" none
        = (confirm_envelope "exploit the box",
           after_user_turn "T0" "exploit the box" emptyMemory)
      ∧ (theSession (process_query defaultConfig [failingPlugin] llmOk "T0" emptyMemory
            "exploit the box" none).2).findings = (theSession emptyMemory).findings
      ∧ (theSession (process_query defaultConfig [failingPlugin] llmOk "T0" emptyMemory
            "exploit the box" none).2).tool_executions
          = (theSession emptyMemory).tool_executions) :=
  ⟨by decide, by decide,
   c1_amended_confirmation_halts_pipeline defaultConfig [failingPlugin] llmOk "T0"
     emptyMemory "exploit the box" none (by decide) (by decide) (by decide)⟩

theorem process_query_after_scope_cases (cfg : OrchestratorConfig)
    (plugins : List Plugin) (llm : String → LLMContext → Except String String)
    (now : String) (st2 : MemoryState) (query : String) (target : Option String)
    (rc : Option Bool) :
    (danger_gate cfg query rc = true
      ∧ process_query_after_scope cfg plugins llm now st2 query target rc
          = (confirm_envelope query, st2))
    ∨ (danger_gate cfg query rc = false
      ∧ ((∃ e, llm (build_planning_prompt query (request_context query target st2))
                 (get_context 10 st2) = Except.error e
            ∧ (process_query_after_scope cfg plugins llm now st2 query target rc).1
                = pipeline_error_envelope query e)
        ∨ ((process_query_after_scope cfg plugins llm now st2 query target rc).1.success
              = true
          ∧ (process_query_after_scope cfg plugins llm now st2 query target rc).1.target
              = target
          ∧ (process_query_after_scope cfg plugins llm now st2 query target rc).1.plugins_executed
              = some ((plugins.filter fun p => p.matchesQuery query).map Plugin.name)
          ∧ (process_query_after_scope cfg plugins llm now st2 query target rc).1.results
              = some ((plugins.filter fun p => p.matchesQuery query).map
                  (resultOf (request_context query target st2)))))) := by
  by_cases hd : (is_dangerous_action cfg query
      && rc.getD cfg.safety.require_confirmation) = true
  · exact Or.inl ⟨hd, by simp [process_query_after_scope, hd]⟩
  · have hd2 : (is_dangerous_action cfg query
        && rc.getD cfg.safety.require_confirmation) = false := by
      simpa using hd
    refine Or.inr ⟨hd2, ?_⟩
    rcases el : llm (build_planning_prompt query (request_context query target st2))
        (get_context 10 st2) with e | plan
    · exact Or.inl ⟨e, rfl, by simp [process_query_after_scope, hd2, el]⟩
    · refine Or.inr ?_
      simp [process_query_after_scope, hd2, el, pluginLoop_fst]

/-- C4: when the extractor finds no target, the scope configuration is
never consulted (replacing it changes nothing), the out-of-scope
rejection envelope is never returned, and the query proceeds to the
safety gate and, when that gate passes, to plugin dispatch (or to the
pipeline failure envelope when the LLM collaborator fails). -/
theorem c4_no_target_skips_scope (cfg : OrchestratorConfig) (plugins : List Plugin)
    (llm : String → LLMContext → Except String String) (now : String)
    (st0 : MemoryState) (query : String) (rc : Option Bool)
    (h : extract_target query = none) :
    (∀ sc : ScopeConfig,
        process_query ⟨sc, cfg.safety⟩ plugins llm now st0 query rc
          = process_query cfg plugins llm now st0 query rc)
    ∧ (∀ t, (process_query cfg plugins llm now st0 query rc).1
        ≠ scope_reject_envelope t)
    ∧ (danger_gate cfg query rc = true →
        (process_query cfg plugins llm now st0 query rc).1 = confirm_envelope query)
    ∧ (danger_gate cfg query rc = false →
        ((process_query cfg plugins llm now st0 query rc).1.success = true
            ∧ (process_query cfg plugins llm now st0 query rc).1.plugins_executed
                = some ((plugins.filter fun p => p.matchesQuery query).map Plugin.name))
          ∨ ∃ e, (process_query cfg plugins llm now st0 query rc).1
              = pipeline_error_envelope query e) := by
  have hred : ∀ cfg' : OrchestratorConfig,
      process_query cfg' plugins llm now st0 query rc
        = process_query_after_scope cfg' plugins llm now (after_user_turn now query st0)
            query none rc := by
    intro cfg'
    rw [process_query_scope_pass cfg' plugins llm now st0 query rc (by simp [scope_gate, h]),
      h]
  have hcases := process_query_after_scope_cases cfg plugins llm now
    (after_user_turn now query st0) query none rc
  refine ⟨?_, ?_, ?_, ?_⟩
  · intro sc
    rw [hred ⟨sc, cfg.safety⟩, hred cfg]
    rfl
  · intro t heq
    rw [hred cfg] at heq
    rcases hcases with ⟨-, hc⟩ | ⟨-, ⟨e, -, hc⟩ | ⟨hc, -⟩⟩
    · rw [hc] at heq
      simp [confirm_envelope, scope_reject_envelope, emptyEnvelope] at heq
    · rw [hc] at heq
      simp [pipeline_error_envelope, scope_reject_envelope, emptyEnvelope] at heq
    · rw [heq] at hc
      simp [scope_reject_envelope, emptyEnvelope] at hc
  · intro hdg
    rw [hred cfg]
    rcases hcases with ⟨-, hc⟩ | ⟨hd0, -⟩
    · rw [hc]
    · rw [hdg] at hd0; cases hd0
  · intro hdg
    rw [hred cfg]
    rcases hcases with ⟨hd1, -⟩ | ⟨-, ⟨e, -, hc⟩ | ⟨h1, -, h2, -⟩⟩
    · rw [hdg] at hd1; cases hd1
    · exact Or.inr ⟨e, hc⟩
    · exact Or.inl ⟨h1, h2⟩

/-- C4 witness: the untargeted query `list my findings` under the
default strict configuration with empty allow-lists. -/
theorem c4_no_target_skips_scope_witness :
    extract_target "list my findings" = none
    ∧ ∀ t, (process_query defaultConfig [] llmOk "T0" emptyMemory
        "list my findings" none).1 ≠ scope_reject_envelope t :=
  ⟨by decide,
   (c4_no_target_skips_scope defaultConfig [] llmOk "T0" emptyMemory
     "list my findings" none (by decide)).2.1⟩

/-- C10: when the scope and safety gates pass and the LLM collaborator
never fails, the returned envelope has `success = true`, whatever the
individual plugin results say. -/
theorem c10_envelope_success_regardless_of_results (cfg : OrchestratorConfig)
    (plugins : List Plugin) (llm : String → LLMContext → Except String String)
    (now : String) (st0 : MemoryState) (query : String) (rc : Option Bool)
    (hs : scope_gate cfg query = true)
    (hd : danger_gate cfg query rc = false)
    (hl : ∀ p c, ∃ s, llm p c = Except.ok s) :
    (process_query cfg plugins llm now st0 query rc).1.success = true := by
  rw [process_query_scope_pass _ _ _ _ _ _ _ hs]
  rcases process_query_after_scope_cases cfg plugins llm now
      (after_user_turn now query st0) query (extract_target query) rc with
    ⟨hd1, -⟩ | ⟨-, ⟨e, hle, -⟩ | ⟨h1, -⟩⟩
  · rw [hd] at hd1; cases hd1
  · obtain ⟨s, hok⟩ := hl (build_planning_prompt query
      (request_context query (extract_target query) (after_user_turn now query st0)))
      (get_context 10 (after_user_turn now query st0))
    rw [hok] at hle; cases hle
  · exact h1

/-- C10 witness: `scan for open ports` has no target, so the nmap plugin
reports a failed result (`No target specified`), yet the envelope says
`success = true`. -/
theorem c10_envelope_success_witness :
    scope_gate defaultConfig "scan for open ports" = true
    ∧ danger_gate defaultConfig "scan for open ports" none = false
    ∧ (process_query defaultConfig [nmapPlugin stubScanner stubScanner stubScanner]
          llmOk "T0" emptyMemory "scan for open ports" none).1.results
        = some [{ emptyResult with success := some false,
                                   error := some "No target specified" }]
    ∧ (process_query defaultConfig [nmapPlugin stubScanner stubScanner stubScanner]
          llmOk "T0" emptyMemory "scan for open ports" none).1.success = true :=
  ⟨by decide, by decide, by decide,
   c10_envelope_success_regardless_of_results defaultConfig
     [nmapPlugin stubScanner stubScanner stubScanner] llmOk "T0" emptyMemory
     "scan for open ports" none (by decide) (by decide) fun p c => ⟨"plan", rfl⟩⟩

/-- C5: under passing gates and a working LLM, exactly the plugins whose
predicate matches the query run, in registration order; a raising
plugin contributes the synthesized failure entry in its position while
every other matching plugin's own result and recorded Findings (and
ToolExecutions) still appear, in order. -/
theorem c5_dispatch_order_and_fault_isolation (cfg : OrchestratorConfig)
    (plugins : List Plugin) (llm : String → LLMContext → Except String String)
    (now : String) (st0 : MemoryState) (query : String) (rc : Option Bool)
    (plan : String)
    (hs : scope_gate cfg query = true)
    (hd : danger_gate cfg query rc = false)
    (hl : llm (build_planning_prompt query (request_context query (extract_target query)
            (after_user_turn now query st0)))
          (get_context 10 (after_user_turn now query st0)) = Except.ok plan) :
    (process_query cfg plugins llm now st0 query rc).1.plugins_executed
        = some ((plugins.filter fun p => p.matchesQuery query).map Plugin.name)
    ∧ (process_query cfg plugins llm now st0 query rc).1.results
        = some ((plugins.filter fun p => p.matchesQuery query).map
            (resultOf (request_context query (extract_target query)
              (after_user_turn now query st0))))
    ∧ (theSession (process_query cfg plugins llm now st0 query rc).2).findings
        = (theSession st0).findings
          ++ (plugins.filter fun p => p.matchesQuery query).flatMap
              (recordedFindings now (extract_target query)
                (request_context query (extract_target query)
                  (after_user_turn now query st0)))
    ∧ (theSession (process_query cfg plugins llm now st0 query rc).2).tool_executions
        = (theSession st0).tool_executions
          ++ (plugins.filter fun p => p.matchesQuery query).flatMap
              (recordedExecutions now (extract_target query)
                (request_context query (extract_target query)
                  (after_user_turn now query st0))) := by
  rw [process_query_scope_pass _ _ _ _ _ _ _ hs]
  have hd2 : (is_dangerous_action cfg query
      && rc.getD cfg.safety.require_confirmation) = false := hd
  simp only [process_query_after_scope, hd2, Bool.false_eq_true, if_false, hl]
  refine ⟨?_, ?_, ?_, ?_⟩ <;>
    simp [pluginLoop_fst, pluginLoop_findings, pluginLoop_execs, after_user_turn]

/-- C5 witness: `boom` raises and `reporter` still runs after it; both
are selected, in order, and `reporter`'s Finding reaches the session. -/
theorem c5_dispatch_witness :
    (process_query openScopeConfig [failingPlugin, reportingPlugin] llmOk "T0"
        emptyMemory "check 1.2.3.4" none).1.plugins_executed
      = some ["boom", "reporter"]
    ∧ (process_query openScopeConfig [failingPlugin, reportingPlugin] llmOk "T0"
        emptyMemory "check 1.2.3.4" none).1.results
      = some [mkErrorResult "boom" "kaput",
              { emptyResult with success := some true,
                                 findings := some [payloadWithTarget] }]
    ∧ (theSession (process_query openScopeConfig [failingPlugin, reportingPlugin]
        llmOk "T0" emptyMemory "check 1.2.3.4" none).2).findings.map Finding.description
      = ["demo finding"] := by
  have h := c5_dispatch_order_and_fault_isolation openScopeConfig
    [failingPlugin, reportingPlugin] llmOk "T0" emptyMemory "check 1.2.3.4" none
    "plan" (by decide) (by decide) rfl
  refine ⟨?_, ?_, ?_⟩
  · rw [h.1]; decide
  · rw [h.2.1]; decide
  · rw [h.2.2.1]; decide

/-- C9 counterexample: the payload names its own target `9.9.9.9`, the
pipeline extracted `1.2.3.4`, and the recorded Finding carries
`1.2.3.4` — the pipeline target wins, contradicting the claim that a
payload-specified target is used. -/
theorem c9_counterexample_pipeline_target_wins :
    payloadWithTarget.target = some "9.9.9.9"
    ∧ extract_target "check 1.2.3.4" = some "1.2.3.4"
    ∧ (theSession (process_query openScopeConfig [reportingPlugin] llmOk "T0"
          emptyMemory "check 1.2.3.4" none).2).findings.map Finding.target
        = ["1.2.3.4"] := by decide

/-- C9 (amended): under passing gates and a working LLM, the recorder
appends one Finding per payload whose target is the pipeline target
whenever that is present and nonempty, falling back to the payload's
target (defaulted to the empty string) only otherwise; severity defaults
to `info` when the payload gives none, the type to `unknown`. -/
theorem c9_amended_recorder_field_construction (cfg : OrchestratorConfig)
    (plugins : List Plugin) (llm : String → LLMContext → Except String String)
    (now : String) (st0 : MemoryState) (query : String) (rc : Option Bool)
    (plan : String)
    (hs : scope_gate cfg query = true)
    (hd : danger_gate cfg query rc = false)
    (hl : llm (build_planning_prompt query (request_context query (extract_target query)
            (after_user_turn now query st0)))
          (get_context 10 (after_user_turn now query st0)) = Except.ok plan) :
    (theSession (process_query cfg plugins llm now st0 query rc).2).findings
      = (theSession st0).findings
        ++ (plugins.filter fun p => p.matchesQuery query).flatMap fun p =>
            match p.execute (request_context query (extract_target query)
                (after_user_turn now query st0)) with
            | Except.ok pr =>
              (pr.findings.getD []).map fun fd =>
                { id := p.name ++ "_" ++ now
                  timestamp := now
                  target := match extract_target query with
                            | some t => if t = "" then fd.target.getD "" else t
                            | none => fd.target.getD ""
                  type := fd.type.getD "unknown"
                  severity := fd.severity.getD "info"
                  description := fd.description.getD ""
                  evidence := fd.evidence.getD []
                  recommendations := fd.recommendations.getD [] }
            | Except.error _ => [] := by
  rw [process_query_scope_pass _ _ _ _ _ _ _ hs]
  have hd2 : (is_dangerous_action cfg query
      && rc.getD cfg.safety.require_confirmation) = false := hd
  simp only [process_query_after_scope, hd2, Bool.false_eq_true, if_false, hl]
  have hrec : recordedFindings now (extract_target query)
      (request_context query (extract_target query) (after_user_turn now query st0))
      = fun p =>
          match p.execute (request_context query (extract_target query)
              (after_user_turn now query st0)) with
          | Except.ok pr =>
            (pr.findings.getD []).map fun fd =>
              { id := p.name ++ "_" ++ now
                timestamp := now
                target := match extract_target query with
                          | some t => if t = "" then fd.target.getD "" else t
                          | none => fd.target.getD ""
                type := fd.type.getD "unknown"
                severity := fd.severity.getD "info"
                description := fd.description.getD ""
                evidence := fd.evidence.getD []
                recommendations := fd.recommendations.getD [] }
          | Except.error _ => [] := by
    funext p
    rcases et : extract_target query with - | t
    · rcases e : p.execute (request_context query none (after_user_turn now query st0))
          with e' | pr <;>
        simp [recordedFindings, et, e, mkFinding, pyOrStr]
    · rcases e : p.execute (request_context query (some t) (after_user_turn now query st0))
          with e' | pr <;>
        simp [recordedFindings, et, e, mkFinding, pyOrStr]
  rw [← hrec]
  simp [pluginLoop_findings, after_user_turn]

/-- C9 witness: a payload with no severity is recorded at `info`, and
with no pipeline target the payload's own target is used. -/
theorem c9_amended_recorder_witness :
    (theSession (process_query openScopeConfig [reportingPlugin] llmOk "T0"
        emptyMemory "record findings please" none).2).findings.map
        (fun f => (f.target, f.severity))
      = [("9.9.9.9", "high")] := by
  have h := c9_amended_recorder_field_construction openScopeConfig [reportingPlugin]
    llmOk "T0" emptyMemory "record findings please" none "plan"
    (by decide) (by decide) rfl
  rw [h]
  decide

theorem prev_shift (prev : Option Char) (c : Char) (cs : List Char) (i : Nat) :
    (if i + 1 = 0 then prev else (c :: cs)[i + 1 - 1]?)
      = (if i = 0 then some c else cs[i - 1]?) := by
  cases i with
  | zero => simp
  | succ j => simp

theorem reFindAllAux_nil_iff
    (m : Option Char → List Char → Option (List Char × List Char))
    (hm : ∀ pv, m pv [] = none) :
    ∀ (fuel : Nat) (prev : Option Char) (cs : List Char), cs.length < fuel →
      (reFindAllAux m fuel prev cs = []
        ↔ ∀ i, m (if i = 0 then prev else cs[i - 1]?) (cs.drop i) = none) := by
  intro fuel
  induction fuel with
  | zero => intro prev cs h; exact absurd h (Nat.not_lt_zero _)
  | succ fuel ih =>
    intro prev cs h
    cases cs with
    | nil =>
      refine ⟨fun _ i => ?_, fun _ => rfl⟩
      rw [List.drop_nil]
      exact hm _
    | cons c cs' =>
      rcases e : m prev (c :: cs') with - | ⟨w, rest⟩
      · rw [show reFindAllAux m (fuel + 1) prev (c :: cs')
            = reFindAllAux m fuel (some c) cs' by simp [reFindAllAux, e]]
        rw [ih (some c) cs' (by simpa using Nat.lt_of_succ_lt_succ h)]
        constructor
        · intro hall i
          cases i with
          | zero => simpa using e
          | succ j => rw [prev_shift, List.drop_succ_cons]; exact hall j
        · intro hall i
          have := hall (i + 1)
          rwa [prev_shift, List.drop_succ_cons] at this
      · rw [show reFindAllAux m (fuel + 1) prev (c :: cs')
            = w :: reFindAllAux m fuel w.getLast? rest by simp [reFindAllAux, e]]
        constructor
        · intro hfalse; cases hfalse
        · intro hall
          have h0 := hall 0
          simp [e] at h0

theorem reFindAllAux_head
    (m : Option Char → List Char → Option (List Char × List Char)) :
    ∀ (fuel : Nat) (prev : Option Char) (cs : List Char), cs.length < fuel →
      ∀ w ws, reFindAllAux m fuel prev cs = w :: ws →
        ∃ i rest, m (if i = 0 then prev else cs[i - 1]?) (cs.drop i) = some (w, rest)
          ∧ ∀ j, j < i → m (if j = 0 then prev else cs[j - 1]?) (cs.drop j) = none := by
  intro fuel
  induction fuel with
  | zero => intro prev cs h; exact absurd h (Nat.not_lt_zero _)
  | succ fuel ih =>
    intro prev cs h w ws heq
    cases cs with
    | nil => exact absurd heq (by simp [reFindAllAux])
    | cons c cs' =>
      rcases e : m prev (c :: cs') with - | ⟨w0, rest0⟩
      · rw [show reFindAllAux m (fuel + 1) prev (c :: cs')
            = reFindAllAux m fuel (some c) cs' by simp [reFindAllAux, e]] at heq
        obtain ⟨i, rest, hi, hmin⟩ :=
          ih (some c) cs' (by simpa using Nat.lt_of_succ_lt_succ h) w ws heq
        refine ⟨i + 1, rest, ?_, ?_⟩
        · rwa [prev_shift, List.drop_succ_cons]
        · intro j hj
          cases j with
          | zero => simpa using e
          | succ j' =>
            rw [prev_shift, List.drop_succ_cons]
            exact hmin j' (by omega)
      · rw [show reFindAllAux m (fuel + 1) prev (c :: cs')
            = w0 :: reFindAllAux m fuel w0.getLast? rest0 by simp [reFindAllAux, e]] at heq
        cases heq
        exact ⟨0, rest0, by simpa using e, fun j hj => absurd hj (Nat.not_lt_zero _)⟩

theorem ipHere_nil (pv : Option Char) : ipHere pv [] = none := by
  rcases hb : boundaryBefore pv <;> simp [ipHere, hb, ipCore, octetDot]

theorem find?_eq_some_split {α : Type} (p : α → Bool) (l : List α) (w : α) :
    l.find? p = some w
      ↔ ∃ l1 l2, l = l1 ++ w :: l2 ∧ (∀ x ∈ l1, p x = false) ∧ p w = true := by
  induction l with
  | nil => simp
  | cons a l ih =>
    cases e : p a with
    | false =>
      rw [List.find?_cons_of_neg _ (by simp [e]), ih]
      constructor
      · rintro ⟨l1, l2, rfl, hall, hw⟩
        refine ⟨a :: l1, l2, rfl, ?_, hw⟩
        intro x hx
        rcases List.mem_cons.mp hx with rfl | hx
        · exact e
        · exact hall x hx
      · rintro ⟨l1, l2, heq, hall, hw⟩
        cases l1 with
        | nil =>
          simp only [List.nil_append, List.cons.injEq] at heq
          rw [heq.1] at e
          rw [e] at hw
          cases hw
        | cons b l1' =>
          simp only [List.cons_append, List.cons.injEq] at heq
          exact ⟨l1', l2, heq.2, fun x hx => hall x (List.mem_cons.mpr (Or.inr hx)), hw⟩
    | true =>
      rw [List.find?_cons_of_pos _ e]
      constructor
      · rintro heq
        cases Option.some.inj heq
        exact ⟨[], l, rfl, by simp, e⟩
      · rintro ⟨l1, l2, heq, hall, hw⟩
        cases l1 with
        | nil =>
          simp only [List.nil_append, List.cons.injEq] at heq
          rw [heq.1]
        | cons b l1' =>
          simp only [List.cons_append, List.cons.injEq] at heq
          have hb := hall b (by simp)
          rw [heq.1] at e
          rw [e] at hb
          cases hb

theorem ipFindAll_nil_iff (query : String) :
    ipFindAll query = [] ↔ ∀ i, ipAtPos query i = none := by
  have hkey := reFindAllAux_nil_iff ipHere ipHere_nil (query.length + 1) none
    query.data (Nat.lt_succ_self _)
  unfold ipFindAll reFindAll
  rw [List.map_eq_nil_iff, hkey]
  unfold ipAtPos
  constructor
  · intro h i
    rw [h i]; rfl
  · intro h i
    exact Option.map_eq_none'.mp (h i)

/-- C8: the extractor returns the IP-pattern match at the least matching
start position when one exists; otherwise the first entry of the
domain-pattern match list (in text order) that is not excluded;
otherwise nothing, and then no position matches the IP pattern and every
domain match is excluded. -/
theorem c8_extract_target_first_ip_then_domain (query : String) :
    (∀ w, extract_target query = some w →
      (∃ i, ipAtPos query i = some w ∧ ∀ j, j < i → ipAtPos query j = none)
      ∨ ((∀ i, ipAtPos query i = none)
          ∧ excludedTargets.contains w = false
          ∧ ∃ l1 l2, domainFindAll query = l1 ++ w :: l2
              ∧ ∀ d ∈ l1, excludedTargets.contains d = true))
    ∧ (extract_target query = none →
        (∀ i, ipAtPos query i = none)
        ∧ ∀ d ∈ domainFindAll query, excludedTargets.contains d = true) := by
  constructor
  · intro w hw
    rcases eip : ipFindAll query with - | ⟨m0, ms⟩
    · simp only [extract_target, eip] at hw
      right
      obtain ⟨l1, l2, heq, hall, hww⟩ := (find?_eq_some_split _ _ _).mp hw
      refine ⟨(ipFindAll_nil_iff query).mp eip, by simpa using hww,
        l1, l2, heq, ?_⟩
      intro d hd
      simpa using hall d hd
    · simp only [extract_target, eip, Option.some.injEq] at hw
      left
      rcases eaux : reFindAllAux ipHere (query.length + 1) none query.data
          with - | ⟨w0, ws0⟩
      · rw [show ipFindAll query
            = (reFindAllAux ipHere (query.length + 1) none query.data).map String.mk
            from rfl, eaux] at eip
        cases eip
      · obtain ⟨i, rest, hi, hmin⟩ := reFindAllAux_head ipHere (query.length + 1)
          none query.data (Nat.lt_succ_self _) w0 ws0 eaux
        have hm0 : m0 = String.mk w0 := by
          rw [show ipFindAll query
              = (reFindAllAux ipHere (query.length + 1) none query.data).map String.mk
              from rfl, eaux] at eip
          exact (List.cons.inj eip).1.symm
        refine ⟨i, ?_, ?_⟩
        · unfold ipAtPos
          rw [hi, ← hw, hm0]
          rfl
        · intro j hj
          unfold ipAtPos
          rw [hmin j hj]
          rfl
  · intro hnone
    rcases eip : ipFindAll query with - | ⟨m0, ms⟩
    · simp only [extract_target, eip] at hnone
      refine ⟨(ipFindAll_nil_iff query).mp eip, ?_⟩
      intro d hd
      have := List.find?_eq_none.mp hnone d hd
      simpa using this
    · simp only [extract_target, eip] at hnone
      cases hnone

/-- C8 witness: `scan 10.0.0.5 now` extracts `10.0.0.5`, the leftmost
(indeed only) IP-pattern match. -/
theorem c8_extract_target_witness :
    extract_target "scan 10.0.0.5 now" = some "10.0.0.5"
    ∧ ((∃ i, ipAtPos "scan 10.0.0.5 now" i = some "10.0.0.5"
          ∧ ∀ j, j < i → ipAtPos "scan 10.0.0.5 now" j = none)
      ∨ ((∀ i, ipAtPos "scan 10.0.0.5 now" i = none)
          ∧ excludedTargets.contains "10.0.0.5" = false
          ∧ ∃ l1 l2, domainFindAll "scan 10.0.0.5 now" = l1 ++ "10.0.0.5" :: l2
              ∧ ∀ d ∈ l1, excludedTargets.contains d = true)) :=
  ⟨by decide,
   (c8_extract_target_first_ip_then_domain "scan 10.0.0.5 now").1 "10.0.0.5" (by decide)⟩

/-- C3 witness: the characterization instantiated at the default
configuration and the spec's example query. -/
theorem c3_amended_witness :
    is_dangerous_action defaultConfig "Run EXPLOIT now" = true ↔
      ∃ k ∈ defaultConfig.safety.dangerous_actions,
        ∃ pre post, (lowerStr "Run EXPLOIT now").data = pre ++ k.data ++ post :=
  (c3_amended_keyword_verbatim_query_folded defaultConfig "Run EXPLOIT now").1

/-- C7 witness: rule `example.com` accepts `api.example.com`. -/
theorem c7_domain_rule_witness :
    domainRuleMatch "example.com" "api.example.com" = true :=
  (c7_domain_rule_suffix_exact "example.com" "api.example.com").2.1
